import Mathlib

set_option maxHeartbeats 1000000

/-!
Shallow embedding of the card-matching core (`card_matcher.py`) of the
pokeprices scraper, together with theorems settling the frozen claims about
it.  Python strings are modelled as Lean `String`s manipulated through their
character lists; the regular expressions the source uses are embedded as
explicit scanning functions with the same leftmost-match, greedy/backtracking
semantics on the ASCII fragment that the data exercises; Python `None` is
`Option.none`; a Python function that can raise returns an `Option` whose
`none` means an uncaught exception.
-/

namespace CardMatcher

/-- ASCII lowercase map, modelling `str.lower` on the ASCII fragment
(non-ASCII characters such as the star symbol are fixed points in both). -/
def pyLowerL (cs : List Char) : List Char := cs.map Char.toLower

/-- `str.lower` at string level. -/
def pyLower (s : String) : String := String.mk (pyLowerL s.toList)

/-- The whitespace class of Python's `str.split`/`str.strip` and of `\s`
in the `re` module (ASCII fragment). -/
def pySpace (c : Char) : Bool :=
  c = ' ' || c = '\t' || c = '\n' || c = '\r' || c = '\x0b' || c = '\x0c'

/-- Word characters for the regex `\b` boundary (ASCII fragment of `\w`). -/
def isWordChar (c : Char) : Bool := c.isAlpha || c.isDigit || c = '_'

/-- Whether the position holding the given character (none = outside the
string) holds a word character. -/
def wordAt : Option Char → Bool
  | some c => isWordChar c
  | none => false

/-- The `\b` assertion between two adjacent positions. -/
def bdryAt (a b : Option Char) : Bool := wordAt a != wordAt b

/-- Substring occurrence on character lists: `needle` occurs somewhere in
`hay`. -/
def isSubL (needle : List Char) : List Char → Bool
  | [] => needle.isEmpty
  | c :: t => needle.isPrefixOf (c :: t) || isSubL needle t

/-- Python's substring test, the `in` operator on `str`. -/
def substrB (needle hay : String) : Bool := isSubL needle.toList hay.toList

/-- First maximal non-whitespace run.  This is `s.split()[0]` whenever `s`
contains a non-space character; the source only indexes `split()` on base
names produced by `parse_card_name`, which are `strip()`ed, so the two
agree on every reachable input. -/
def firstWordL (cs : List Char) : List Char :=
  (cs.dropWhile pySpace).takeWhile (fun c => !pySpace c)

/-- `str.strip()`. -/
def pyStripL (cs : List Char) : List Char :=
  ((cs.dropWhile pySpace).reverse.dropWhile pySpace).reverse

/-- `str.strip()` at string level. -/
def pyStrip (s : String) : String := String.mk (pyStripL s.toList)

/-- `lstrip("0")` followed by the `or "0"` default used for card numbers. -/
def lstripZeroOrZero (cs : List Char) : List Char :=
  let t := cs.dropWhile (fun c => c = '0')
  if t = [] then ['0'] else t

/-- The VALUE_VARIANTS registry: canonical key paired with its alias list,
in the source's (insertion) order, which is also the detection order. -/
def VALUE_VARIANTS : List (String × List String) :=
  [ ("1st edition",    ["1st edition", "1st ed", "1st ed.", "first edition"]),
    ("gold star",      ["gold star", "goldstar", "gold ★", " ★ "]),
    ("shadowless",     ["shadowless", "shadow less"]),
    ("1999-2000",      ["1999-2000", "1999 2000", "uk print", "4th print"]),
    ("black dot error", ["black dot error", "black dot"]),
    ("tekno",          ["tekno", "techno"]),
    ("sparkle",        ["sparkle", "spectra"]),
    ("for position only", ["for position only", "fpo", "test print"]),
    ("trainer deck a", ["trainer deck a"]),
    ("trainer deck b", ["trainer deck b"]),
    ("prerelease staff", ["prerelease staff", "pre-release staff", "staff prerelease"]),
    ("prerelease",     ["prerelease", "pre-release", "pre release"]),
    ("staff",          ["staff"]),
    ("error",          ["error", "misprint"]),
    ("double holo error", ["double holo", "double holo error"]),
    ("stadium challenge", ["stadium challenge"]),
    ("cosmos professor program", ["cosmos professor program", "cosmos professor"]),
    ("professor program", ["professor program", "professor promo"]),
    ("championships",  ["championship", "championships", "worlds"]),
    ("quarter-finalist", ["quarter-finalist", "quarter finalist", "qf"]),
    ("semi-finalist",  ["semi-finalist", "semi finalist", "sf"]),
    ("top thirty-two", ["top thirty-two", "top 32", "top thirty two"]),
    ("top 8",          ["top 8", "top eight"]),
    ("ultra ball league", ["ultra ball league"]),
    ("premier ball league", ["premier ball league"]),
    ("regional championship staff", ["regional championship staff"]) ]

/-- The COSMETIC_VARIANTS registry, in source order. -/
def COSMETIC_VARIANTS : List (String × List String) :=
  [ ("reverse holo",   ["reverse holo", "reverse holographic", "rev holo", "reverse"]),
    ("holo",           ["holo", "holographic", "holofoil"]),
    ("foil",           ["foil"]),
    ("rainbow foil",   ["rainbow foil", "rainbow"]),
    ("non-holo",       ["non-holo", "non holo", "nonholo"]) ]

/-- Variant detection over a lowercased title: for each key in registry
order, record it when some alias occurs as a substring (the source `break`s
after the first alias, so one key is recorded at most once). -/
def detectVariants (reg : List (String × List String)) (tl : String) : List String :=
  (reg.filter (fun p => p.2.any (fun a => substrB (pyLower a) tl))).map Prod.fst

/-- The grading-company alternation of the grading regex, in source order. -/
def COMPANIES : List String :=
  ["PSA", "CGC", "BGS", "SGC", "ACE", "AGS", "TAG", "GMA", "MNT"]

/-- The tail `\.?\d*\b` of the grading regex after the greedy `\d+` has
consumed the maximal digit run `D1`, with Python's backtracking resolved:
`r` is the remaining input.  Returns the full text of group 2 on success. -/
def tailGrade (D1 : List Char) (r : List Char) : Option (List Char) :=
  if r.head? = some '.' then
    if r.tail.takeWhile Char.isDigit = [] then
      -- `\d*` can only be empty; the boundary after '.' needs a word char
      if wordAt r.tail.head? then some (D1 ++ ['.']) else some D1
    else
      -- greedy `\d*` takes the whole digit run when a boundary follows it,
      -- otherwise backtracks to empty (the '.'/digit boundary always holds)
      if wordAt (r.tail.dropWhile Char.isDigit).head? then some (D1 ++ ['.'])
      else some (D1 ++ '.' :: r.tail.takeWhile Char.isDigit)
  else if wordAt r.head? then none else some D1

/-- One attempt of the grading regex
`\b(PSA|CGC|BGS|SGC|ACE|AGS|TAG|GMA|MNT)\s*(\d+\.?\d*)\b` (IGNORECASE)
at a fixed position; `prev` is the character before the position.  The
alternatives are three distinct letters each, so at most one can match.
Returns (group 1 uppercased, group 2). -/
def tryGradeAt (prev : Option Char) (cs : List Char) : Option (String × String) :=
  if bdryAt prev cs.head? then
    match COMPANIES.find? (fun t => (cs.take 3).map Char.toUpper = t.toList) with
    | none => none
    | some t =>
        let r1 := (cs.drop 3).dropWhile pySpace
        let D1 := r1.takeWhile Char.isDigit
        if D1 = [] then none
        else
          match tailGrade D1 (r1.dropWhile Char.isDigit) with
          | none => none
          | some g => some (t, String.mk g)
  else none

/-- `re.search` for the grading regex: leftmost matching position wins. -/
def gradeSearchL : Option Char → List Char → Option (String × String)
  | _, [] => none
  | prev, c :: cs =>
      match tryGradeAt prev (c :: cs) with
      | some r => some r
      | none => gradeSearchL (some c) cs

/-- Grading extraction on the raw (uncased) title. -/
def gradeSearch (title : String) : Option (String × String) :=
  gradeSearchL none title.toList

/-- One attempt of `\bgraded\b` at a fixed position of the lowercased title. -/
def gradedWordAt (prev : Option Char) (cs : List Char) : Bool :=
  "graded".toList.isPrefixOf cs && !wordAt prev && !wordAt (cs.drop 6).head?

/-- `re.search(r'\bgraded\b', title_lower)` as a Boolean. -/
def hasGradedWordL : Option Char → List Char → Bool
  | _, [] => false
  | prev, c :: cs => gradedWordAt prev (c :: cs) || hasGradedWordL (some c) cs

/-- One attempt of `(\d{1,4})\s*/\s*\d{1,4}` at a fixed position.  A digit
run longer than 4 cannot match here (the greedy group would be followed by
a digit, not '/'), but a later start inside the run can still match. -/
def fracAt (cs : List Char) : Option (List Char) :=
  let D := cs.takeWhile Char.isDigit
  if D = [] || decide (4 < D.length) then none
  else
    match (cs.drop D.length).dropWhile pySpace with
    | '/' :: r2 =>
        match (r2.dropWhile pySpace).head? with
        | some c => if c.isDigit then some D else none
        | none => none
    | _ => none

/-- `re.search` for the fraction card-number pattern. -/
def fracSearchL : List Char → Option (List Char)
  | [] => none
  | c :: cs =>
      match fracAt (c :: cs) with
      | some d => some d
      | none => fracSearchL cs

/-- One attempt of `#\s*([A-Za-z]*\d+[A-Za-z]*)` at a fixed position. -/
def hashAt : List Char → Option (List Char)
  | '#' :: r =>
      let r1 := r.dropWhile pySpace
      let L1 := r1.takeWhile Char.isAlpha
      let r2 := r1.drop L1.length
      let D := r2.takeWhile Char.isDigit
      if D = [] then none
      else
        let r3 := r2.drop D.length
        some (L1 ++ D ++ r3.takeWhile Char.isAlpha)
  | _ => none

/-- `re.search` for the `#number` pattern. -/
def hashSearchL : List Char → Option (List Char)
  | [] => none
  | c :: cs =>
      match hashAt (c :: cs) with
      | some d => some d
      | none => hashSearchL cs

/-- The lazy group of `\[(.*?)\]` starting right after a '[': the content
stops at the first ']' and cannot cross a newline. -/
def tagContent (r : List Char) : List Char :=
  r.takeWhile (fun c => !(c = ']') && !(c = '\n'))

/-- `re.findall(r'\[(.*?)\]', s)`: non-overlapping bracketed tag contents.
The fuel argument (instantiated with the list length, which the recursion
never exceeds) keeps the recursion structural so that proofs can evaluate
the function. -/
def findTagsF : Nat → List Char → List (List Char)
  | 0, _ => []
  | _ + 1, [] => []
  | fuel + 1, '[' :: r =>
      match r.drop (tagContent r).length with
      | ']' :: r2 => tagContent r :: findTagsF fuel r2
      | _ => findTagsF fuel r
  | fuel + 1, _ :: r => findTagsF fuel r

/-- `re.findall(r'\[(.*?)\]', s)` at the intended fuel. -/
def findTags (cs : List Char) : List (List Char) := findTagsF cs.length cs

/-- `re.sub(r'\[.*?\]', '', s)`: delete the same non-overlapping matches,
with the same structural-fuel scheme. -/
def stripTagsF : Nat → List Char → List Char
  | 0, rest => rest
  | _ + 1, [] => []
  | fuel + 1, '[' :: r =>
      match r.drop (tagContent r).length with
      | ']' :: r2 => stripTagsF fuel r2
      | _ => '[' :: stripTagsF fuel r
  | fuel + 1, c :: r => c :: stripTagsF fuel r

/-- `re.sub(r'\[.*?\]', '', s)` at the intended fuel. -/
def stripTags (cs : List Char) : List Char := stripTagsF cs.length cs

/-- `re.search(r'#(\S+)', s)`: group 1 of the first match. -/
def findHashNum : List Char → Option (List Char)
  | [] => none
  | '#' :: r =>
      let g := r.takeWhile (fun c => !pySpace c)
      if g = [] then findHashNum r else some g
  | _ :: r => findHashNum r

/-- `re.sub(r'#\S+', '', s)`: delete every '#' followed by a nonempty
non-space run. -/
def stripHashNumsF : Nat → List Char → List Char
  | 0, rest => rest
  | _ + 1, [] => []
  | fuel + 1, '#' :: r =>
      if (r.takeWhile (fun c => !pySpace c)) = [] then '#' :: stripHashNumsF fuel r
      else stripHashNumsF fuel (r.drop (r.takeWhile (fun c => !pySpace c)).length)
  | fuel + 1, c :: r => c :: stripHashNumsF fuel r

/-- The hash-number deletion at the intended fuel. -/
def stripHashNums (cs : List Char) : List Char := stripHashNumsF cs.length cs

/-- The dictionary returned by `parse_ebay_title` (minus the early `None`). -/
structure ParsedTitle where
  title_lower : String
  card_number : Option String
  grading_company : Option String
  grade_number : Option String
  is_graded : Bool
  value_variants_found : List String
  cosmetic_variants_found : List String
deriving Repr, DecidableEq

/-- `parse_ebay_title`.  An empty title is the only falsy input, giving the
early `None` return.  Set membership tests on Python lists are `∈`. -/
def parse_ebay_title (title : String) : Option ParsedTitle :=
  if title = "" then none
  else
    let tl := pyLower title
    let gr := gradeSearch title
    let card_number : Option String :=
      match fracSearchL title.toList with
      | some d => some (String.mk (lstripZeroOrZero d))
      | none => (hashSearchL title.toList).map String.mk
    let vv := detectVariants VALUE_VARIANTS tl
    let cv0 := detectVariants COSMETIC_VARIANTS tl
    let cv := if "reverse holo" ∈ cv0 ∧ "holo" ∈ cv0 then cv0.erase "holo" else cv0
    some
      { title_lower := tl
        card_number := card_number
        grading_company := gr.map Prod.fst
        grade_number := gr.map Prod.snd
        is_graded := gr.isSome || hasGradedWordL none tl.toList
        value_variants_found := vv
        cosmetic_variants_found := cv }

/-- The dictionary returned by `parse_card_name` (minus the early `None`). -/
structure ParsedCard where
  base_name : String
  card_number : Option String
  value_variants : List String
  cosmetic_variants : List String
deriving Repr, DecidableEq

/-- Classification of one bracketed tag: value-variant keys are tried first
in registry order (key as substring of the lowercased tag), cosmetic keys
only when no value key matched; an unmatched tag contributes nothing. -/
def classifyTag (tag : String) : Option (Bool × String) :=
  let tagLower := pyLower tag
  match VALUE_VARIANTS.find? (fun p => substrB p.1 tagLower) with
  | some p => some (true, p.1)
  | none =>
      match COSMETIC_VARIANTS.find? (fun p => substrB p.1 tagLower) with
      | some p => some (false, p.1)
      | none => none

/-- `parse_card_name`.  An empty name is the only falsy input. -/
def parse_card_name (card_name : String) : Option ParsedCard :=
  if card_name = "" then none
  else
    let tags := (findTags card_name.toList).map String.mk
    let classified := tags.filterMap classifyTag
    let value_vars := (classified.filter (fun p => p.1)).map Prod.snd
    let cosmetic_vars := (classified.filter (fun p => !p.1)).map Prod.snd
    let clean := pyStrip (String.mk (stripTags card_name.toList))
    let card_number := (findHashNum clean.toList).map String.mk
    let base_name := pyStrip (String.mk (stripHashNums clean.toList))
    some
      { base_name := base_name
        card_number := card_number
        value_variants := value_vars
        cosmetic_variants := cosmetic_vars }

/-- A candidate row from `card_trends` as `find_best_match` consumes it:
identifier, display name and the three price fields (a field holding
Python `None` is `none`). -/
structure Card where
  card_slug : String
  card_name : String
  current_raw : Option Int
  current_psa10 : Option Int
  current_psa9 : Option Int
deriving Repr, DecidableEq

/-- Scoring constants fixed by the source (`score_match`'s literals). -/
def BASE_NAME_REWARD : Int := 20

/-- Reward for a matching card number. -/
def NUMBER_REWARD : Int := 15

/-- Penalty per value-variant key present on exactly one side. -/
def VALUE_MISMATCH_PENALTY : Int := 50

/-- The gate sentinel subtracted when the base name is not found. -/
def GATE_SENTINEL : Int := 100

/-- Python truthiness of an optional string (`None` and `""` are falsy). -/
def optStrTruthy : Option String → Bool
  | none => false
  | some s => decide (¬ s = "")

/-- A single-quote character as a string, for the f-string breakdowns. -/
def sq : String := "\x27"

/-- Wrap in single quotes like the source's f-strings do. -/
def qt (s : String) : String := sq ++ s ++ sq

/-- The card-number rule of `score_match` (step 2): only applies when both
sides carry a truthy number. -/
def numberScore (ep : ParsedTitle) (cp : ParsedCard) : Int × List String :=
  if optStrTruthy cp.card_number && optStrTruthy ep.card_number then
    let cardNum := String.mk (lstripZeroOrZero (cp.card_number.getD "").toList)
    let ebayNum := String.mk (lstripZeroOrZero (ep.card_number.getD "").toList)
    if pyLower cardNum = pyLower ebayNum then
      (NUMBER_REWARD, ["+15 number " ++ qt cardNum])
    else
      (-20, ["-20 number mismatch: card=" ++ qt cardNum ++ " ebay=" ++ qt ebayNum])
  else (0, [])

/-- The value-variant rule of `score_match` (step 3).  The source converts
both lists to Python sets; `dedup` models the set contents, and the
iteration order of a CPython set is unspecified, so the fixed
first-occurrence order used here is one legitimate reading (the score does
not depend on it). -/
def valueScore (ep : ParsedTitle) (cp : ParsedCard) : Int × List String :=
  let cardV := cp.value_variants.dedup
  let ebayV := ep.value_variants_found.dedup
  let shared := cardV.filter (fun v => decide (v ∈ ebayV))
  let cardOnly := cardV.filter (fun v => decide (v ∉ ebayV))
  let ebayOnly := ebayV.filter (fun v => decide (v ∉ cardV))
  (10 * (shared.length : Int) - VALUE_MISMATCH_PENALTY * (cardOnly.length : Int)
      - VALUE_MISMATCH_PENALTY * (ebayOnly.length : Int),
   shared.map (fun v => "+10 value variant " ++ qt v ++ " MATCH")
     ++ cardOnly.map (fun v => "-50 card has " ++ qt v ++ " but eBay title MISSING it")
     ++ ebayOnly.map (fun v => "-50 eBay title has " ++ qt v ++ " but card DOESN\x27T"))

/-- The cosmetic-variant rule of `score_match` (step 4). -/
def cosmeticScore (ep : ParsedTitle) (cp : ParsedCard) : Int × List String :=
  let cardC := cp.cosmetic_variants.dedup
  let ebayC := ep.cosmetic_variants_found.dedup
  let shared := cardC.filter (fun v => decide (v ∈ ebayC))
  let cardOnly := cardC.filter (fun v => decide (v ∉ ebayC))
  let ebayOnly := ebayC.filter (fun v => decide (v ∉ cardC))
  (3 * (shared.length : Int) - 10 * (cardOnly.length : Int) - 10 * (ebayOnly.length : Int),
   shared.map (fun v => "+3 cosmetic " ++ qt v ++ " match")
     ++ cardOnly.map (fun v => "-10 card has cosmetic " ++ qt v ++ " but title missing")
     ++ ebayOnly.map (fun v => "-10 title has cosmetic " ++ qt v ++ " but card doesn\x27t"))

/-- The first whitespace-delimited token of the lowercased base name
(`base_lower.split()[0] if base_lower else ""`). -/
def baseFirstWord (cp : ParsedCard) : String :=
  String.mk (firstWordL (pyLower cp.base_name).toList)

/-- `score_match`.  Arguments are optional because the source checks
`if not ebay_parsed or not card_parsed` first.  After a passing base-name
gate the score and breakdown accumulate the number, value-variant and
cosmetic-variant rules in source order. -/
def score_match (ep? : Option ParsedTitle) (cp? : Option ParsedCard) : Int × List String :=
  match ep?, cp? with
  | some ep, some cp =>
      let w := baseFirstWord cp
      if ¬ w = "" ∧ substrB w ep.title_lower = true then
        let n := numberScore ep cp
        let v := valueScore ep cp
        let c := cosmeticScore ep cp
        (BASE_NAME_REWARD + n.1 + v.1 + c.1,
         ("+20 name " ++ qt w) :: (n.2 ++ (v.2 ++ c.2)))
      else
        (-GATE_SENTINEL, ["-100 name " ++ qt w ++ " NOT FOUND"])
  | _, _ => (-GATE_SENTINEL, ["no data"])

/-- The 4-tuple returned by `find_best_match`. -/
structure MatchResult where
  best : Option Card
  score : Int
  breakdown : List String
  confidence : String
deriving Repr, DecidableEq

/-- The confidence mapping at the end of `find_best_match`. -/
def confidenceOf (s : Int) : String :=
  if 35 ≤ s then "high"
  else if 20 ≤ s then "medium"
  else if 0 ≤ s then "low"
  else "none"

/-- The candidate loop of `find_best_match`: strict improvement updates the
running best, so the first candidate attaining the final maximum wins. -/
def bestLoop (ep : ParsedTitle) :
    List Card → Option Card → Int → List String → Option Card × Int × List String
  | [], bc, bs, bb => (bc, bs, bb)
  | c :: rest, bc, bs, bb =>
      match parse_card_name c.card_name with
      | none => bestLoop ep rest bc bs bb
      | some cp =>
          if bs < (score_match (some ep) (some cp)).1 then
            bestLoop ep rest (some c) (score_match (some ep) (some cp)).1
              (score_match (some ep) (some cp)).2
          else bestLoop ep rest bc bs bb

/-- The score a candidate receives inside the loop of `find_best_match`,
when its name parses. -/
def candScore (ep : ParsedTitle) (c : Card) : Option Int :=
  (parse_card_name c.card_name).map (fun cp => (score_match (some ep) (some cp)).1)

/-- `find_best_match`. -/
def find_best_match (ebay_title : String) (candidates : List Card) : MatchResult :=
  match parse_ebay_title ebay_title with
  | none => ⟨none, 0, [], "none"⟩
  | some ep =>
      let st := bestLoop ep candidates none (-999) []
      ⟨st.1, st.2.1, st.2.2, confidenceOf st.2.1⟩

/-- Python truthiness-and-positivity test `val and val > 0` on a price
field (`None` is falsy; for an int the test is just positivity). -/
def isPos : Option Int → Bool
  | none => false
  | some v => decide (0 < v)

/-- Value of a digit run. -/
def digitsNat : List Char → Nat :=
  List.foldl (fun a c => 10 * a + (c.toNat - 48)) 0

/-- Python's `float()` on the sign-less digit/dot fragment
(`\d*\.?\d*` with at least one digit); every grade string the grading
regex can produce lies in this fragment, and `none` models an exception
on anything outside it. -/
def pyFloatQ : String → Option ℚ := fun s =>
  let cs := s.toList
  let d1 := cs.takeWhile Char.isDigit
  let r := cs.dropWhile Char.isDigit
  if r = [] then
    if d1 = [] then none else some (digitsNat d1 : ℚ)
  else if r.head? = some '.' ∧ r.tail.all Char.isDigit = true ∧ (¬ d1 = [] ∨ ¬ r.tail = []) then
    some ((digitsNat d1 : ℚ) + (digitsNat r.tail : ℚ) / ((10 : ℚ) ^ r.tail.length))
  else none

/-- The shape `\d+\.?\d*` that group 2 of the grading regex always has:
a nonempty digit run, optionally followed by a dot and a (possibly empty)
digit run. -/
def gradeShapeL (cs : List Char) : Bool :=
  decide (¬ cs.takeWhile Char.isDigit = []) &&
    (decide (cs.dropWhile Char.isDigit = []) ||
      (decide ((cs.dropWhile Char.isDigit).head? = some '.') &&
        (cs.dropWhile Char.isDigit).tail.all Char.isDigit))

/-- `gradeShapeL` at string level. -/
def gradeShape (s : String) : Bool := gradeShapeL s.toList

/-- How an f-string renders an optional string (`None` prints as "None"). -/
def fmtOpt : Option String → String
  | none => "None"
  | some s => s

/-- The condition `grade and float(grade) >= 9` of `get_fair_value`:
`none` models the `float` call raising. -/
def cond9OfGrade (grade : Option String) : Option Bool :=
  match grade with
  | some g => if ¬ g = "" then (pyFloatQ g).map (fun q => decide ((9 : ℚ) ≤ q)) else some false
  | none => some false

/-- `get_fair_value`.  The outer `Option` is the exception monad for the
`float(grade)` call: `none` means the Python code would raise.  The inner
pair is (price, label) where the price is `none` when Python returns
`None`. -/
def get_fair_value (card : Option Card) (ebay_parsed : Option ParsedTitle) :
    Option (Option Int × String) :=
  match ebay_parsed, card with
  | none, _ => some (some 0, "Unknown")
  | some _, none => some (some 0, "Unknown")
  | some p, some c =>
      if p.is_graded then
        let grade := p.grade_number
        let company := p.grading_company
        if grade = some "10" ∧ isPos c.current_psa10 = true then
          some (c.current_psa10, fmtOpt company ++ " " ++ fmtOpt grade)
        else
          match cond9OfGrade grade with
          | none => none
          | some b =>
              if b && isPos c.current_psa9 then
                some (c.current_psa9, fmtOpt company ++ " " ++ fmtOpt grade)
              else if isPos c.current_psa9 then
                some (c.current_psa9, "Graded (est)")
              else some (c.current_raw, "Raw")
      else some (c.current_raw, "Raw")

/-- Numeric rank of a confidence tier, for stating monotonicity. -/
def tierRank (s : String) : Nat :=
  if s = "high" then 3 else if s = "medium" then 2 else if s = "low" then 1 else 0

/-- A catalog display name carrying 21 distinct value-variant tags; its
`score_match` score against the bare title "charizard" is
20 - 21 * 50 = -1030, strictly below the -999 initialisation sentinel of
`find_best_match`. -/
def bigVariantName : String :=
  "Charizard [1st Edition] [Gold Star] [Shadowless] [1999-2000] [Black Dot Error] [Tekno] [Sparkle] [For Position Only] [Trainer Deck A] [Trainer Deck B] [Prerelease Staff] [Prerelease] [Stadium Challenge] [Cosmos Professor Program] [Championships] [Quarter-Finalist] [Semi-Finalist] [Top Thirty-Two] [Top 8] [Ultra Ball League] [Premier Ball League]"

/-- A candidate entry built on `bigVariantName`. -/
def bigVariantCard : Card := ⟨"big", bigVariantName, some 1, some 1, some 1⟩

/-! ### Basic lemmas about the embedding -/

lemma toList_mk (l : List Char) : (String.mk l).toList = l := rfl

lemma parse_ebay_title_empty : parse_ebay_title "" = none := by
  simp [parse_ebay_title]

lemma parse_card_name_empty : parse_card_name "" = none := by
  simp [parse_card_name]

lemma parse_ebay_title_of_ne (t : String) (h : ¬ t = "") :
    ∃ ep, parse_ebay_title t = some ep := by
  rw [parse_ebay_title, if_neg h]
  exact ⟨_, rfl⟩

lemma bestLoop_skip (ep : ParsedTitle) :
    ∀ (cs : List Card) (bc : Option Card) (bs : Int) (bb : List String),
      (∀ c ∈ cs, parse_card_name c.card_name = none) →
      bestLoop ep cs bc bs bb = (bc, bs, bb) := by
  intro cs
  induction cs with
  | nil => intro bc bs bb _; rfl
  | cons c rest ih =>
      intro bc bs bb h
      have hc : parse_card_name c.card_name = none := h c (List.mem_cons_self c rest)
      simp only [bestLoop, hc]
      exact ih bc bs bb (fun x hx => h x (List.mem_cons_of_mem _ hx))

/-! ### Claim theorems -/

/-- C8: when the title fails to parse (it is empty), or the candidate list
is empty, or every candidate's name fails to parse (is empty),
`find_best_match` returns the none-sentinel candidate with confidence tier
"none" and an empty reason list; the embedding is a total function, so no
exception is raised. -/
theorem c8_degenerate_inputs_yield_none_sentinel :
    ∀ (title : String) (cands : List Card),
      (title = "" ∨ cands = [] ∨ (∀ c ∈ cands, c.card_name = "")) →
      (find_best_match title cands).best = none ∧
        (find_best_match title cands).breakdown = [] ∧
        (find_best_match title cands).confidence = "none" := by
  intro title cands h
  rcases h with h | h | h
  · subst h
    simp [find_best_match, parse_ebay_title_empty]
  · subst h
    cases hp : parse_ebay_title title with
    | none => simp [find_best_match, hp]
    | some ep => simp [find_best_match, hp, bestLoop, confidenceOf]
  · cases hp : parse_ebay_title title with
    | none => simp [find_best_match, hp]
    | some ep =>
        have hskip := bestLoop_skip ep cands none (-999) []
          (fun c hc => by rw [h c hc]; exact parse_card_name_empty)
        simp [find_best_match, hp, hskip, confidenceOf]

/-- Witness for C8 at the concrete degenerate input ("", []). -/
theorem c8_witness :
    (find_best_match "" []).best = none ∧
      (find_best_match "" []).breakdown = [] ∧
      (find_best_match "" []).confidence = "none" :=
  c8_degenerate_inputs_yield_none_sentinel "" [] (Or.inl rfl)

/-- C9: the none-sentinel comes with two distinct scores: an unparseable
(empty) title returns score 0, while a parsed title with no parseable
candidate returns the -999 initialisation sentinel. -/
theorem c9_two_distinct_none_scores :
    (∀ cands : List Card, (find_best_match "" cands).score = 0) ∧
      (∀ (title : String) (cands : List Card), ¬ title = "" →
        (cands = [] ∨ (∀ c ∈ cands, c.card_name = "")) →
        (find_best_match title cands).score = -999) := by
  constructor
  · intro cands
    simp [find_best_match, parse_ebay_title_empty]
  · intro title cands ht h
    obtain ⟨ep, hp⟩ := parse_ebay_title_of_ne title ht
    rcases h with h | h
    · subst h
      simp [find_best_match, hp, bestLoop]
    · have hskip := bestLoop_skip ep cands none (-999) []
        (fun c hc => by rw [h c hc]; exact parse_card_name_empty)
      simp [find_best_match, hp, hskip]

/-- Witness for C9 at concrete inputs: empty title, and a nonempty title
with an empty candidate pool. -/
theorem c9_witness :
    (find_best_match "" []).score = 0 ∧ (find_best_match "x" []).score = -999 :=
  ⟨c9_two_distinct_none_scores.1 [],
    c9_two_distinct_none_scores.2 "x" [] (by decide) (Or.inl rfl)⟩

/-- C4: if the first whitespace-delimited token of the lowercased catalog
base name does not occur as a substring of the lowercased title,
`score_match` returns exactly the -100 gate sentinel with exactly one
explanatory reason, and no other rule runs. -/
theorem c4_base_name_gate_sentinel (ep : ParsedTitle) (cp : ParsedCard)
    (h : substrB (baseFirstWord cp) ep.title_lower = false) :
    score_match (some ep) (some cp) =
      (-100, ["-100 name " ++ qt (baseFirstWord cp) ++ " NOT FOUND"]) := by
  simp only [score_match]
  rw [if_neg]
  · rfl
  · rintro ⟨-, h2⟩
    rw [h] at h2
    exact Bool.false_ne_true h2

/-- Witness for C4 at a concrete title/card pair whose base names differ. -/
theorem c4_witness :
    score_match (some ⟨"pikachu 4/102", some "4", none, none, false, [], []⟩)
        (some ⟨"Charizard", some "4", [], []⟩) =
      (-100, ["-100 name " ++ qt (baseFirstWord ⟨"Charizard", some "4", [], []⟩)
          ++ " NOT FOUND"]) :=
  c4_base_name_gate_sentinel _ _ (by decide)

/-! ### Grade-string shape lemmas -/

lemma takeWhile_append_all {p : Char → Bool} {l1 l2 : List Char} (h : l1.all p = true) :
    (l1 ++ l2).takeWhile p = l1 ++ l2.takeWhile p := by
  induction l1 with
  | nil => simp
  | cons a t ih =>
      simp only [List.all_cons, Bool.and_eq_true] at h
      simp [List.takeWhile_cons_of_pos h.1, ih h.2]

lemma dropWhile_append_all {p : Char → Bool} {l1 l2 : List Char} (h : l1.all p = true) :
    (l1 ++ l2).dropWhile p = l2.dropWhile p := by
  induction l1 with
  | nil => simp
  | cons a t ih =>
      simp only [List.all_cons, Bool.and_eq_true] at h
      simp [List.dropWhile_cons_of_pos h.1, ih h.2]

lemma gradeShapeL_of_digits {D1 : List Char} (h1 : ¬ D1 = [])
    (h2 : D1.all Char.isDigit = true) : gradeShapeL D1 = true := by
  have ht : D1.takeWhile Char.isDigit = D1 :=
    List.takeWhile_eq_self_iff.mpr (fun x hx => List.all_eq_true.mp h2 x hx)
  have hd : D1.dropWhile Char.isDigit = [] :=
    List.dropWhile_eq_nil_iff.mpr (fun x hx => List.all_eq_true.mp h2 x hx)
  simp [gradeShapeL, ht, hd, h1]

lemma gradeShapeL_dot {D1 D2 : List Char} (h1 : ¬ D1 = [])
    (h2 : D1.all Char.isDigit = true) (h3 : D2.all Char.isDigit = true) :
    gradeShapeL (D1 ++ '.' :: D2) = true := by
  have hdot : ('.').isDigit = false := by decide
  have ht : (D1 ++ '.' :: D2).takeWhile Char.isDigit = D1 := by
    rw [takeWhile_append_all h2, List.takeWhile_cons_of_neg (by simp [hdot])]
    simp
  have hd : (D1 ++ '.' :: D2).dropWhile Char.isDigit = '.' :: D2 := by
    rw [dropWhile_append_all h2, List.dropWhile_cons_of_neg (by simp [hdot])]
  simp [gradeShapeL, ht, hd, h1, h3]

lemma tailGrade_shape {D1 r g : List Char} (h1 : ¬ D1 = [])
    (h2 : D1.all Char.isDigit = true) (h : tailGrade D1 r = some g) :
    gradeShapeL g = true := by
  unfold tailGrade at h
  split_ifs at h <;> cases h <;>
    first
    | exact gradeShapeL_of_digits h1 h2
    | exact gradeShapeL_dot h1 h2 (by simp)

lemma tryGradeAt_shape {prev : Option Char} {cs : List Char} {p : String × String}
    (h : tryGradeAt prev cs = some p) : gradeShape p.2 = true := by
  unfold tryGradeAt at h
  split_ifs at h
  rcases hf : COMPANIES.find? (fun t => (cs.take 3).map Char.toUpper = t.toList) with _ | t
  · rw [hf] at h; exact Option.noConfusion h
  · rw [hf] at h
    dsimp only at h
    split_ifs at h with hD1
    rcases htg : tailGrade (((cs.drop 3).dropWhile pySpace).takeWhile Char.isDigit)
        (((cs.drop 3).dropWhile pySpace).dropWhile Char.isDigit) with _ | g0
    · rw [htg] at h; exact Option.noConfusion h
    · rw [htg] at h
      cases h
      exact tailGrade_shape hD1 List.all_takeWhile htg

lemma gradeSearchL_shape :
    ∀ (cs : List Char) (prev : Option Char) (p : String × String),
      gradeSearchL prev cs = some p → gradeShape p.2 = true := by
  intro cs
  induction cs with
  | nil => intro prev p h; cases h
  | cons c rest ih =>
      intro prev p h
      rw [gradeSearchL] at h
      rcases ht : tryGradeAt prev (c :: rest) with _ | q
      · rw [ht] at h
        exact ih (some c) p h
      · rw [ht] at h
        cases h
        exact tryGradeAt_shape ht

lemma parse_grade_shape {t : String} {pt : ParsedTitle}
    (hp : parse_ebay_title t = some pt) {g : String}
    (hg : pt.grade_number = some g) : gradeShape g = true := by
  rw [parse_ebay_title] at hp
  split_ifs at hp
  injection hp with hp
  subst hp
  simp only at hg
  rcases hgr : gradeSearch t with _ | q
  · rw [hgr] at hg; cases hg
  · rw [hgr] at hg
    have hq : q.2 = g := by simpa using hg
    rw [← hq]
    exact gradeSearchL_shape t.toList none q hgr

lemma pyFloatQ_isSome_of_shape {g : String} (h : gradeShape g = true) :
    (pyFloatQ g).isSome = true := by
  unfold gradeShape gradeShapeL at h
  simp only [Bool.and_eq_true, Bool.or_eq_true, decide_eq_true_eq] at h
  obtain ⟨h1, h2⟩ := h
  simp only [pyFloatQ]
  rcases h2 with h2 | h2
  · rw [if_pos h2, if_neg h1]; rfl
  · obtain ⟨ha, hb⟩ := h2
    have hr : ¬ (List.dropWhile Char.isDigit g.toList) = [] := by
      intro he; rw [he] at ha; exact Option.noConfusion ha
    rw [if_neg hr, if_pos ⟨ha, hb, Or.inl h1⟩]; rfl

lemma cond9OfGrade_isSome_of_parsed {t : String} {pt : ParsedTitle}
    (hp : parse_ebay_title t = some pt) :
    ∃ b, cond9OfGrade pt.grade_number = some b := by
  rcases hg : pt.grade_number with _ | g
  · exact ⟨false, rfl⟩
  · have hfl := pyFloatQ_isSome_of_shape (parse_grade_shape hp hg)
    rcases hfq : pyFloatQ g with _ | q
    · rw [hfq] at hfl; cases hfl
    · simp only [cond9OfGrade, hfq]
      by_cases hge : g = ""
      · rw [if_neg (by simp [hge])]
        exact ⟨false, rfl⟩
      · rw [if_pos hge]
        exact ⟨_, rfl⟩

/-- C10: every grade string produced by `parse_ebay_title` has the shape
digits, optionally followed by a dot and further (possibly zero) digits,
so the `float(grade)` conversion inside `get_fair_value` always succeeds
and `get_fair_value` never raises on a parser output paired with any
candidate entry. -/
theorem c10_get_fair_value_total :
    ∀ (title : String) (card : Card),
      (∀ pt, parse_ebay_title title = some pt →
        ∀ g, pt.grade_number = some g → gradeShape g = true) ∧
      (get_fair_value (some card) (parse_ebay_title title)).isSome = true := by
  intro title card
  constructor
  · intro pt hp g hg
    exact parse_grade_shape hp hg
  · cases hp : parse_ebay_title title with
    | none => simp [get_fair_value]
    | some pt =>
        unfold get_fair_value
        dsimp only
        by_cases hgr : pt.is_graded = true
        · rw [if_pos hgr]
          by_cases h10 : pt.grade_number = some "10" ∧ isPos card.current_psa10 = true
          · rw [if_pos h10]; rfl
          · rw [if_neg h10]
            obtain ⟨b, hb⟩ := cond9OfGrade_isSome_of_parsed hp
            rw [hb]
            dsimp only
            split_ifs <;> rfl
        · rw [if_neg hgr]; rfl

/-- Witness for C10: the grade parsed from "PSA 10" has the digit shape and
the fair value call on it is defined. -/
theorem c10_witness :
    gradeShape "10" = true ∧
      (get_fair_value (some ⟨"s", "n", some 1, some 2, some 3⟩)
          (parse_ebay_title "PSA 10")).isSome = true :=
  ⟨(c10_get_fair_value_total "PSA 10" ⟨"s", "n", some 1, some 2, some 3⟩).1
      ⟨"psa 10", none, some "PSA", some "10", true, [], []⟩ (by decide) "10" rfl,
    (c10_get_fair_value_total "PSA 10" ⟨"s", "n", some 1, some 2, some 3⟩).2⟩

/-! ### Confidence tier (C7) -/

lemma find_best_match_conf_of_parsed {t : String} {cands : List Card} {ep : ParsedTitle}
    (hp : parse_ebay_title t = some ep) :
    (find_best_match t cands).confidence = confidenceOf (find_best_match t cands).score := by
  simp [find_best_match, hp]

lemma find_best_match_shape (t : String) (cands : List Card) :
    (find_best_match t cands).confidence = confidenceOf (find_best_match t cands).score ∨
      ((find_best_match t cands).score = 0 ∧
        (find_best_match t cands).confidence = "none") := by
  cases hp : parse_ebay_title t with
  | none => right; simp [find_best_match, hp]
  | some ep => left; simp [find_best_match, hp]

lemma tierRank_confidenceOf_mono {a b : Int} (h : a ≤ b) :
    tierRank (confidenceOf a) ≤ tierRank (confidenceOf b) := by
  unfold confidenceOf
  split_ifs <;> first | decide | omega

/-- C7 counterexample: the early return for an unparseable (empty) title
pairs score 0 with tier "none", while the fixed threshold mapping sends a
score of 0 to "low" — so the tier returned by `find_best_match` is not a
function of the returned score via those thresholds. -/
theorem c7_counterexample :
    find_best_match "" [] = ⟨none, 0, [], "none"⟩ ∧ confidenceOf 0 = "low" :=
  ⟨by decide, by decide⟩

/-- C7 amended: whenever the title parses, the returned tier is exactly the
fixed threshold mapping of the returned winning score (35/20/0 for
high/medium/low, otherwise none), and across all runs a strictly higher
winning score never yields a strictly lower tier; the empty-title early
return, however, pairs score 0 with tier "none" instead of "low". -/
theorem c7_amended_confidence_monotone :
    (∀ (t : String) (cands : List Card) (ep : ParsedTitle), parse_ebay_title t = some ep →
      (find_best_match t cands).confidence = confidenceOf (find_best_match t cands).score) ∧
    (∀ s : Int, (35 ≤ s → confidenceOf s = "high") ∧
      (20 ≤ s → s < 35 → confidenceOf s = "medium") ∧
      (0 ≤ s → s < 20 → confidenceOf s = "low") ∧
      (s < 0 → confidenceOf s = "none")) ∧
    (∀ (t1 : String) (c1 : List Card) (t2 : String) (c2 : List Card),
      (find_best_match t2 c2).score < (find_best_match t1 c1).score →
      tierRank (find_best_match t2 c2).confidence ≤
        tierRank (find_best_match t1 c1).confidence) := by
  refine ⟨?_, ?_, ?_⟩
  · intro t cands ep hp
    exact find_best_match_conf_of_parsed hp
  · intro s
    refine ⟨fun h => ?_, fun h h2 => ?_, fun h h2 => ?_, fun h => ?_⟩ <;>
      unfold confidenceOf <;> split_ifs <;> first | rfl | omega
  · intro t1 c1 t2 c2 hlt
    rcases find_best_match_shape t1 c1 with ha | ⟨ha0, han⟩ <;>
      rcases find_best_match_shape t2 c2 with hb | ⟨hb0, hbn⟩
    · rw [ha, hb]
      exact tierRank_confidenceOf_mono (le_of_lt hlt)
    · rw [ha, hbn]
      simp [tierRank]
    · rw [han, hb]
      rw [ha0] at hlt
      have hnone : confidenceOf (find_best_match t2 c2).score = "none" := by
        unfold confidenceOf
        split_ifs <;> first | rfl | omega
      rw [hnone]
    · rw [han, hbn]

/-- Witness for C7 at concrete runs: a parsed-title run, a threshold
instance, and a cross-run score comparison. -/
theorem c7_witness :
    (find_best_match "x" []).confidence = confidenceOf (find_best_match "x" []).score ∧
      confidenceOf 40 = "high" ∧
      tierRank (find_best_match "y" []).confidence ≤
        tierRank (find_best_match "" []).confidence :=
  ⟨c7_amended_confidence_monotone.1 "x" [] ⟨"x", none, none, none, false, [], []⟩ (by decide),
    (c7_amended_confidence_monotone.2.1 40).1 (by decide),
    c7_amended_confidence_monotone.2.2 "" [] "y" [] (by decide)⟩

/-! ### Fair value fallthrough (C1) and grade branches (C2) -/

/-- C1 counterexample: with both graded price fields missing (`None`) and a
raw price of 0, a graded parsed title receives the bare zero labelled
"Raw" — not an explicit unknown result with a no-usable-price label. -/
theorem c1_counterexample :
    get_fair_value (some ⟨"z", "Name", some 0, none, none⟩)
        (parse_ebay_title "Charizard PSA 10") = some (some 0, "Raw") := by
  decide

/-- C1 amended: when the selected graded price fields and the raw fallback
are all missing or non-positive, `get_fair_value` does not return a
distinguished unknown: it falls through to the raw field and returns its
value (possibly `None` or 0) labelled "Raw"; the label "Unknown" (with
price 0) occurs only when the card or the parsed title is absent. -/
theorem c1_amended_missing_prices_fall_to_raw (title : String) (pt : ParsedTitle)
    (card : Card) (hp : parse_ebay_title title = some pt)
    (h10 : isPos card.current_psa10 = false) (h9 : isPos card.current_psa9 = false)
    (hraw : isPos card.current_raw = false) :
    get_fair_value (some card) (some pt) = some (card.current_raw, "Raw") := by
  unfold get_fair_value
  dsimp only
  by_cases hgr : pt.is_graded = true
  · rw [if_pos hgr]
    rw [if_neg (by rintro ⟨-, hh⟩; rw [h10] at hh; exact Bool.false_ne_true hh)]
    obtain ⟨b, hb⟩ := cond9OfGrade_isSome_of_parsed hp
    rw [hb]
    dsimp only
    simp [h9]
  · rw [if_neg hgr]

/-- Witness for C1 at a concrete card with no usable price fields. -/
theorem c1_witness :
    get_fair_value (some ⟨"w", "N", none, none, some 0⟩)
        (some ⟨"n psa 9", none, some "PSA", some "9", true, [], []⟩) =
      some (none, "Raw") :=
  c1_amended_missing_prices_fall_to_raw "N PSA 9" _ _ (by decide) (by decide) (by decide)
    (by decide)

lemma pyFloatQ_ten_dot_zero : pyFloatQ "10.0" = some 10 := by
  have h1 : "10.0".toList.takeWhile Char.isDigit = ['1', '0'] := by decide
  have h2 : "10.0".toList.dropWhile Char.isDigit = ['.', '0'] := by decide
  simp only [pyFloatQ, h1, h2]
  rw [if_neg (by decide), if_pos (by decide)]
  have d10 : digitsNat ['1', '0'] = 10 := rfl
  have d0 : digitsNat ['.', '0'].tail = 0 := rfl
  rw [d10, d0]
  norm_num

/-- C2 counterexample: the grade string "10.0" parses to the numeric value
10 (≥ 10) and the top-grade price field is positive (100), yet
`get_fair_value` returns the second-tier price 50: the top-grade branch
compares the grade string to "10" literally rather than numerically. -/
theorem c2_counterexample :
    pyFloatQ "10.0" = some 10 ∧
      get_fair_value (some ⟨"c", "n", some 5, some 100, some 50⟩)
          (parse_ebay_title "Charizard PSA 10.0") = some (some 50, "PSA 10.0") := by
  refine ⟨pyFloatQ_ten_dot_zero, ?_⟩
  have hp : parse_ebay_title "Charizard PSA 10.0" =
      some ⟨"charizard psa 10.0", none, some "PSA", some "10.0", true, [], []⟩ := by decide
  rw [hp]
  unfold get_fair_value
  dsimp only
  rw [if_pos rfl]
  rw [if_neg (by rintro ⟨ha, -⟩; exact absurd (Option.some.inj ha) (by decide))]
  have hc : cond9OfGrade (some "10.0") = some true := by
    simp only [cond9OfGrade, if_pos (show ¬ "10.0" = "" by decide), pyFloatQ_ten_dot_zero,
      Option.map_some']
    have : decide ((9 : ℚ) ≤ 10) = true := decide_eq_true (by norm_num)
    rw [this]
  rw [hc]
  dsimp only
  rw [if_pos (by decide)]
  rfl

/-- C2 amended: the top-grade branch fires exactly when the grade string is
literally "10" (and the top-grade field is positive), labelled
company+grade; otherwise a grade with numeric value ≥ 9 whose second-tier
field is positive gets the second-tier price, labelled company+grade; each
step falls through only when its preferred field is missing or
non-positive. -/
theorem c2_amended_grade_branches (pt : ParsedTitle) (card : Card) (g : String)
    (hgr : pt.is_graded = true) (hg : pt.grade_number = some g) :
    (g = "10" → isPos card.current_psa10 = true →
      get_fair_value (some card) (some pt) =
        some (card.current_psa10, fmtOpt pt.grading_company ++ " " ++ g)) ∧
    (∀ q : ℚ, pyFloatQ g = some q → (g = "10" → isPos card.current_psa10 = false) →
      (9 : ℚ) ≤ q → isPos card.current_psa9 = true →
      get_fair_value (some card) (some pt) =
        some (card.current_psa9, fmtOpt pt.grading_company ++ " " ++ g)) := by
  constructor
  · intro h10 hpos
    unfold get_fair_value
    dsimp only
    rw [if_pos hgr, if_pos ⟨by rw [hg, h10], hpos⟩, hg]
    rfl
  · intro q hq h10n h9q hpos
    unfold get_fair_value
    dsimp only
    rw [if_pos hgr]
    rw [if_neg (by
      rintro ⟨ha, hb⟩
      rw [hg] at ha
      injection ha with ha
      rw [h10n ha] at hb
      exact Bool.false_ne_true hb)]
    have hgne : ¬ g = "" := by
      rintro rfl
      rw [show pyFloatQ "" = none from rfl] at hq
      exact Option.noConfusion hq
    rw [hg]
    simp only [cond9OfGrade, if_pos hgne, hq, Option.map_some']
    have h9t : decide ((9 : ℚ) ≤ q) = true := decide_eq_true h9q
    rw [h9t, hpos]
    rfl

/-- Witness for C2 at concrete inputs exercising both branches. -/
theorem c2_witness :
    get_fair_value (some ⟨"a", "n", some 5, some 100, some 50⟩)
        (some ⟨"t psa 10", none, some "PSA", some "10", true, [], []⟩) =
      some (some 100, "PSA 10") ∧
    get_fair_value (some ⟨"a", "n", some 5, some 100, some 50⟩)
        (some ⟨"t psa 9", none, some "PSA", some "9", true, [], []⟩) =
      some (some 50, "PSA 9") :=
  ⟨(c2_amended_grade_branches ⟨"t psa 10", none, some "PSA", some "10", true, [], []⟩
      ⟨"a", "n", some 5, some 100, some 50⟩ "10" rfl rfl).1 rfl (by decide),
    (c2_amended_grade_branches ⟨"t psa 9", none, some "PSA", some "9", true, [], []⟩
      ⟨"a", "n", some 5, some 100, some 50⟩ "9" rfl rfl).2 (digitsNat ['9'] : ℚ)
      (by decide) (by intro h; exact absurd h (by decide)) (by decide) (by decide)⟩

/-! ### Value-variant penalty (C5) -/

lemma valueScore_cons (ep : ParsedTitle) (bn : String) (cn : Option String)
    (vv cv : List String) (k : String) (hkc : k ∉ vv)
    (hke : k ∉ ep.value_variants_found) :
    (valueScore ep ⟨bn, cn, k :: vv, cv⟩).1 =
      (valueScore ep ⟨bn, cn, vv, cv⟩).1 - VALUE_MISMATCH_PENALTY := by
  unfold valueScore
  dsimp only
  rw [List.dedup_cons_of_not_mem hkc]
  have hke' : k ∉ ep.value_variants_found.dedup := fun h => hke (List.mem_dedup.mp h)
  rw [List.filter_cons, List.filter_cons]
  rw [if_neg (by simp [hke']), if_pos (by simp [hke'])]
  have hcong : ep.value_variants_found.dedup.filter (fun v => decide (v ∉ k :: vv.dedup)) =
      ep.value_variants_found.dedup.filter (fun v => decide (v ∉ vv.dedup)) := by
    apply List.filter_congr
    intro x hx
    have hxk : ¬ x = k := fun he => hke' (he ▸ hx)
    simp [List.mem_cons, hxk]
  rw [hcong]
  simp only [List.length_cons]
  push_cast
  ring

/-- C5: for a title/entry pair that passes the base-name gate, adding one
value-variant key that is neither detected in the title nor already on the
entry decreases the `score_match` score by exactly the 50-point penalty,
and that penalty strictly exceeds the base-name reward (20) plus the
number reward (15) combined. -/
theorem c5_unexplained_variant_penalty (ep : ParsedTitle) (bn : String)
    (cn : Option String) (vv cv : List String) (k : String)
    (hw : ¬ baseFirstWord ⟨bn, cn, vv, cv⟩ = "")
    (hsub : substrB (baseFirstWord ⟨bn, cn, vv, cv⟩) ep.title_lower = true)
    (hkc : k ∉ vv) (hke : k ∉ ep.value_variants_found) :
    (score_match (some ep) (some ⟨bn, cn, k :: vv, cv⟩)).1 =
        (score_match (some ep) (some ⟨bn, cn, vv, cv⟩)).1 - VALUE_MISMATCH_PENALTY ∧
      BASE_NAME_REWARD + NUMBER_REWARD < VALUE_MISMATCH_PENALTY := by
  refine ⟨?_, by decide⟩
  unfold score_match
  dsimp only
  rw [if_pos ⟨hw, hsub⟩, if_pos ⟨hw, hsub⟩]
  dsimp only
  have hnum : numberScore ep ⟨bn, cn, k :: vv, cv⟩ = numberScore ep ⟨bn, cn, vv, cv⟩ := rfl
  have hcos : cosmeticScore ep ⟨bn, cn, k :: vv, cv⟩ =
      cosmeticScore ep ⟨bn, cn, vv, cv⟩ := rfl
  rw [hnum, hcos, valueScore_cons ep bn cn vv cv k hkc hke]
  ring

/-- Witness for C5 at a concrete title, entry and key. -/
theorem c5_witness :
    (score_match (some ⟨"charizard", none, none, none, false, [], []⟩)
          (some ⟨"Charizard", none, ["gold star"], []⟩)).1 =
        (score_match (some ⟨"charizard", none, none, none, false, [], []⟩)
          (some ⟨"Charizard", none, [], []⟩)).1 - VALUE_MISMATCH_PENALTY ∧
      BASE_NAME_REWARD + NUMBER_REWARD < VALUE_MISMATCH_PENALTY :=
  c5_unexplained_variant_penalty ⟨"charizard", none, none, none, false, [], []⟩
    "Charizard" none [] [] "gold star" (by decide) (by decide) (by decide) (by decide)

/-! ### Alias round-trip (C6) -/

lemma isSubL_suffix (n : List Char) : ∀ p : List Char, isSubL n (p ++ n) = true := by
  intro p
  induction p with
  | nil =>
      cases n with
      | nil => rfl
      | cons c t =>
          show ((c :: t).isPrefixOf (c :: t) || isSubL (c :: t) t) = true
          have hpre : (c :: t).isPrefixOf (c :: t) = true := by
            simp [List.isPrefixOf_iff_prefix]
          rw [hpre]
          rfl
  | cons c p ih =>
      show (n.isPrefixOf (c :: (p ++ n)) || isSubL n (p ++ n)) = true
      rw [ih]
      simp

lemma substr_pyLower_embed (pre a : String) :
    substrB (pyLower a) (pyLower (pre ++ a)) = true := by
  unfold substrB pyLower pyLowerL
  rw [toList_mk, toList_mk]
  have happ : (pre ++ a).toList = pre.toList ++ a.toList := String.data_append pre a
  rw [happ, List.map_append]
  exact isSubL_suffix _ _

lemma detectVariants_mem {reg : List (String × List String)} {k : String}
    {as : List String} (hreg : (k, as) ∈ reg) {a : String} (ha : a ∈ as) {tl : String}
    (hsub : substrB (pyLower a) tl = true) : k ∈ detectVariants reg tl := by
  unfold detectVariants
  have hp : (fun p : String × List String =>
      p.2.any fun al => substrB (pyLower al) tl) (k, as) = true := by
    simp only [List.any_eq_true]
    exact ⟨a, ha, hsub⟩
  exact List.mem_map.mpr ⟨(k, as), List.mem_filter.mpr ⟨hreg, hp⟩, rfl⟩

lemma embed_title_ne_empty (a : String) : ¬ "pokemon " ++ a = "" := by
  intro he
  have hl := congrArg String.length he
  rw [String.length_append] at hl
  have h8 : ("pokemon " : String).length = 8 := rfl
  have h0 : ("" : String).length = 0 := rfl
  omega

/-- C6 counterexample: "holofoil" is a registered alias of the canonical
key "holo", but parsing the synthetic title "pokemon holofoil" detects the
key set ["holo", "foil"] — the alias "foil" of another key also fires — so
the round-trip does not yield exactly the canonical key and no other. -/
theorem c6_counterexample :
    parse_ebay_title "pokemon holofoil" =
        some ⟨"pokemon holofoil", none, none, none, false, [], ["holo", "foil"]⟩ ∧
      ¬ (["holo", "foil"] : List String) = ["holo"] :=
  ⟨by decide, by decide⟩

/-- C6 amended: embedding any registered alias in a synthetic title always
detects a key set CONTAINING the alias's canonical key (exactness fails for
overlapping aliases); in the cosmetic taxonomy the detected bare "holo" key
may additionally be replaced by "reverse holo" through the suppression
pass. -/
theorem c6_amended_alias_detects_key :
    ∀ (k : String) (as : List String) (a : String),
      ((k, as) ∈ VALUE_VARIANTS → a ∈ as →
        ∃ pt, parse_ebay_title ("pokemon " ++ a) = some pt ∧
          k ∈ pt.value_variants_found) ∧
      ((k, as) ∈ COSMETIC_VARIANTS → a ∈ as →
        ∃ pt, parse_ebay_title ("pokemon " ++ a) = some pt ∧
          (k ∈ pt.cosmetic_variants_found ∨
            (k = "holo" ∧ "reverse holo" ∈ pt.cosmetic_variants_found))) := by
  intro k as a
  have hne := embed_title_ne_empty a
  constructor
  · intro hreg ha
    rw [parse_ebay_title, if_neg hne]
    refine ⟨_, rfl, ?_⟩
    dsimp only
    exact detectVariants_mem hreg ha (substr_pyLower_embed "pokemon " a)
  · intro hreg ha
    rw [parse_ebay_title, if_neg hne]
    refine ⟨_, rfl, ?_⟩
    dsimp only
    have hk0 : k ∈ detectVariants COSMETIC_VARIANTS (pyLower ("pokemon " ++ a)) :=
      detectVariants_mem hreg ha (substr_pyLower_embed "pokemon " a)
    split_ifs with hcond
    · by_cases hkh : k = "holo"
      · right
        exact ⟨hkh, List.mem_erase_of_ne (by decide) |>.mpr hcond.1⟩
      · left
        exact (List.mem_erase_of_ne hkh).mpr hk0
    · left
      exact hk0

/-- Witness for C6 at the concrete alias "goldstar" of key "gold star". -/
theorem c6_witness :
    ∃ pt, parse_ebay_title ("pokemon " ++ "goldstar") = some pt ∧
      "gold star" ∈ pt.value_variants_found :=
  (c6_amended_alias_detects_key "gold star" ["gold star", "goldstar", "gold ★", " ★ "]
    "goldstar").1 (by decide) (by decide)

/-! ### Arg-max correctness of the candidate loop (C3) -/

lemma candScore_none {ep : ParsedTitle} {c : Card}
    (h : parse_card_name c.card_name = none) : candScore ep c = none := by
  rw [candScore, h]; rfl

lemma candScore_some {ep : ParsedTitle} {c : Card} {cp : ParsedCard}
    (h : parse_card_name c.card_name = some cp) :
    candScore ep c = some (score_match (some ep) (some cp)).1 := by
  rw [candScore, h]; rfl

lemma bestLoop_noImprove (ep : ParsedTitle) :
    ∀ (cs : List Card) (bc : Option Card) (bs : Int) (bb : List String),
      (∀ c ∈ cs, ∀ s, candScore ep c = some s → s ≤ bs) →
      bestLoop ep cs bc bs bb = (bc, bs, bb) := by
  intro cs
  induction cs with
  | nil => intro bc bs bb _; rfl
  | cons c rest ih =>
      intro bc bs bb h
      cases hpc : parse_card_name c.card_name with
      | none =>
          simp only [bestLoop, hpc]
          exact ih bc bs bb (fun x hx => h x (List.mem_cons_of_mem _ hx))
      | some cp =>
          have hs : (score_match (some ep) (some cp)).1 ≤ bs :=
            h c (List.mem_cons_self c rest) _ (candScore_some hpc)
          simp only [bestLoop, hpc]
          rw [if_neg (not_lt.mpr hs)]
          exact ih bc bs bb (fun x hx => h x (List.mem_cons_of_mem _ hx))

lemma bestLoop_found (ep : ParsedTitle) :
    ∀ (cs : List Card) (bc : Option Card) (bs : Int) (bb : List String),
      (∃ c ∈ cs, ∃ s, candScore ep c = some s ∧ bs < s) →
      ∃ cd sB br l1 l2,
        bestLoop ep cs bc bs bb = (some cd, sB, br) ∧
        cs = l1 ++ cd :: l2 ∧
        candScore ep cd = some sB ∧
        bs < sB ∧
        (∀ c ∈ cs, ∀ s, candScore ep c = some s → s ≤ sB) ∧
        (∀ c ∈ l1, ∀ s, candScore ep c = some s → s < sB) := by
  intro cs
  induction cs with
  | nil =>
      rintro bc bs bb ⟨c, hc, -⟩
      exact absurd hc (List.not_mem_nil c)
  | cons c0 rest ih =>
      rintro bc bs bb ⟨c, hc, s, hcs, hlt⟩
      cases hpc : parse_card_name c0.card_name with
      | none =>
          have hctail : c ∈ rest := by
            rcases List.mem_cons.mp hc with he | ht
            · exfalso
              rw [he, candScore_none hpc] at hcs
              exact Option.noConfusion hcs
            · exact ht
          obtain ⟨cd, sB, br, l1, l2, heq, hsplit, hscore, hbs, hub, hstrict⟩ :=
            ih bc bs bb ⟨c, hctail, s, hcs, hlt⟩
          refine ⟨cd, sB, br, c0 :: l1, l2, ?_, ?_, hscore, hbs, ?_, ?_⟩
          · simp only [bestLoop, hpc]
            exact heq
          · rw [hsplit]; rfl
          · intro x hx s2 hx2
            rcases List.mem_cons.mp hx with he | ht
            · exfalso
              rw [he, candScore_none hpc] at hx2
              exact Option.noConfusion hx2
            · exact hub x ht s2 hx2
          · intro x hx s2 hx2
            rcases List.mem_cons.mp hx with he | ht
            · exfalso
              rw [he, candScore_none hpc] at hx2
              exact Option.noConfusion hx2
            · exact hstrict x ht s2 hx2
      | some cp =>
          have hs0 : candScore ep c0 = some (score_match (some ep) (some cp)).1 :=
            candScore_some hpc
          by_cases himp : bs < (score_match (some ep) (some cp)).1
          · by_cases hex2 : ∃ x ∈ rest, ∃ s2, candScore ep x = some s2 ∧
                (score_match (some ep) (some cp)).1 < s2
            · obtain ⟨cd, sB, br, l1, l2, heq, hsplit, hscore, hbs2, hub, hstrict⟩ :=
                ih (some c0) (score_match (some ep) (some cp)).1
                  (score_match (some ep) (some cp)).2 hex2
              refine ⟨cd, sB, br, c0 :: l1, l2, ?_, ?_, hscore, lt_trans himp hbs2, ?_, ?_⟩
              · simp only [bestLoop, hpc]
                rw [if_pos himp]
                exact heq
              · rw [hsplit]; rfl
              · intro x hx s2 hx2
                rcases List.mem_cons.mp hx with he | ht
                · rw [he, hs0] at hx2
                  injection hx2 with hx2
                  rw [← hx2]
                  exact le_of_lt hbs2
                · exact hub x ht s2 hx2
              · intro x hx s2 hx2
                rcases List.mem_cons.mp hx with he | ht
                · rw [he, hs0] at hx2
                  injection hx2 with hx2
                  rw [← hx2]
                  exact hbs2
                · exact hstrict x ht s2 hx2
            · push_neg at hex2
              have hstop := bestLoop_noImprove ep rest (some c0)
                (score_match (some ep) (some cp)).1 (score_match (some ep) (some cp)).2
                (fun x hx s2 hx2 => hex2 x hx s2 hx2)
              refine ⟨c0, (score_match (some ep) (some cp)).1,
                (score_match (some ep) (some cp)).2, [], rest, ?_, rfl, hs0, himp, ?_, ?_⟩
              · simp only [bestLoop, hpc]
                rw [if_pos himp]
                exact hstop
              · intro x hx s2 hx2
                rcases List.mem_cons.mp hx with he | ht
                · rw [he, hs0] at hx2
                  injection hx2 with hx2
                  exact le_of_eq hx2.symm
                · exact hex2 x ht s2 hx2
              · intro x hx
                exact absurd hx (List.not_mem_nil x)
          · have hctail : c ∈ rest := by
              rcases List.mem_cons.mp hc with he | ht
              · exfalso
                rw [he, hs0] at hcs
                injection hcs with hcs
                rw [← hcs] at hlt
                exact himp hlt
              · exact ht
            obtain ⟨cd, sB, br, l1, l2, heq, hsplit, hscore, hbs, hub, hstrict⟩ :=
              ih bc bs bb ⟨c, hctail, s, hcs, hlt⟩
            refine ⟨cd, sB, br, c0 :: l1, l2, ?_, ?_, hscore, hbs, ?_, ?_⟩
            · simp only [bestLoop, hpc]
              rw [if_neg himp]
              exact heq
            · rw [hsplit]; rfl
            · intro x hx s2 hx2
              rcases List.mem_cons.mp hx with he | ht
              · rw [he, hs0] at hx2
                injection hx2 with hx2
                rw [← hx2]
                exact le_of_lt (lt_of_le_of_lt (not_lt.mp himp) hbs)
              · exact hub x ht s2 hx2
            · intro x hx s2 hx2
              rcases List.mem_cons.mp hx with he | ht
              · rw [he, hs0] at hx2
                injection hx2 with hx2
                rw [← hx2]
                exact lt_of_le_of_lt (not_lt.mp himp) hbs
              · exact hstrict x ht s2 hx2

set_option maxRecDepth 40000 in
/-- C3 counterexample: a pool whose single candidate parses but scores
-1030 (21 unexplained value-variant tags), strictly below the -999
initialisation sentinel: `find_best_match` returns no candidate at all,
so it does not return a maximal-scoring parseable candidate. -/
theorem c3_counterexample :
    (parse_card_name bigVariantCard.card_name).isSome = true ∧
      (find_best_match "charizard" [bigVariantCard]).best = none :=
  ⟨by decide, by decide⟩

/-- C3 amended: whenever the title parses and some parseable candidate
scores strictly above the -999 initialisation sentinel, `find_best_match`
returns a candidate whose score is ≥ the score of every parseable
candidate, and it is the first-encountered one in input order among those
attaining the maximum (all earlier parseable candidates score strictly
lower). -/
theorem c3_amended_argmax_first_wins (title : String) (cands : List Card)
    (ep : ParsedTitle) (hp : parse_ebay_title title = some ep)
    (hex : ∃ c ∈ cands, ∃ s, candScore ep c = some s ∧ -999 < s) :
    ∃ best l1 l2,
      (find_best_match title cands).best = some best ∧
      cands = l1 ++ best :: l2 ∧
      candScore ep best = some (find_best_match title cands).score ∧
      (∀ c ∈ cands, ∀ s, candScore ep c = some s →
        s ≤ (find_best_match title cands).score) ∧
      (∀ c ∈ l1, ∀ s, candScore ep c = some s →
        s < (find_best_match title cands).score) := by
  obtain ⟨cd, sB, br, l1, l2, heq, hsplit, hscore, hbs, hub, hstrict⟩ :=
    bestLoop_found ep cands none (-999) [] hex
  have hfb : find_best_match title cands = ⟨some cd, sB, br, confidenceOf sB⟩ := by
    simp [find_best_match, hp, heq]
  rw [hfb]
  exact ⟨cd, l1, l2, rfl, hsplit, hscore, hub, hstrict⟩

/-- Witness for C3 at a concrete one-candidate pool scoring 20. -/
theorem c3_witness :
    ∃ best l1 l2,
      (find_best_match "charizard" [⟨"s", "Charizard #4", some 1, some 2, some 3⟩]).best
          = some best ∧
      [(⟨"s", "Charizard #4", some 1, some 2, some 3⟩ : Card)] = l1 ++ best :: l2 ∧
      candScore ⟨"charizard", none, none, none, false, [], []⟩ best =
        some (find_best_match "charizard"
          [⟨"s", "Charizard #4", some 1, some 2, some 3⟩]).score ∧
      (∀ c ∈ [(⟨"s", "Charizard #4", some 1, some 2, some 3⟩ : Card)], ∀ s,
        candScore ⟨"charizard", none, none, none, false, [], []⟩ c = some s →
        s ≤ (find_best_match "charizard"
          [⟨"s", "Charizard #4", some 1, some 2, some 3⟩]).score) ∧
      (∀ c ∈ l1, ∀ s, candScore ⟨"charizard", none, none, none, false, [], []⟩ c = some s →
        s < (find_best_match "charizard"
          [⟨"s", "Charizard #4", some 1, some 2, some 3⟩]).score) :=
  c3_amended_argmax_first_wins "charizard" [⟨"s", "Charizard #4", some 1, some 2, some 3⟩]
    ⟨"charizard", none, none, none, false, [], []⟩ (by decide)
    ⟨⟨"s", "Charizard #4", some 1, some 2, some 3⟩, by decide, 20, by decide, by decide⟩

end CardMatcher
